import Mathlib

/-!
Verification of the availability / time-slot subsystem of the hcw-home
backend (`AvailabilityService` in the NestJS backend).

The service is embedded shallowly:

* JS strings holding `HH:MM` times are modelled as `List Char` (`TimeStr`);
  lexicographic comparison on `List Char` coincides with the JS `<` on
  ASCII strings, and the database's lexicographic `gt` on time strings.
* Calendar dates (stored as UTC-midnight timestamps in the source, with
  date-only meaning) are modelled as day numbers (`Nat`); the weekday of a
  day number is its residue mod 7, a fixed relabelling of `Date.getDay()`.
* Numeric JS values (ids passed in requests, `dayOfWeek`, `slotDuration`,
  `consultationId`) are modelled as `Int`; database-assigned row ids as
  `Nat`.  JS `Number` coercion of time strings is modelled on digit
  strings (an all-digit string parses, the empty string parses to 0 as in
  JS, anything containing a non-digit is NaN hence invalid).
* The Prisma store is a pair of row lists with auto-increment counters
  (`DB`); `findFirst`/`findUnique` become `List.find?`, `updateMany` /
  `deleteMany` become `map` / `filter`, `update` is a `map` replacing the
  rows with the matching id, `createMany` appends.
* Thrown `HttpException`s become an `Except` error value; Prisma's own
  record-not-found failure on `update` of a missing row is `RecordNotFound`.
* The current clock (`new Date()`), where the source consults it, becomes
  explicit parameters `today : Nat` / `nowTime : TimeStr`.
-/

/-- Time-of-day strings (`HH:MM`), modelled as their character list. -/
abbrev TimeStr := List Char

/-- Lexicographic strict comparison of character lists: the comparison the
JS runtime and the database apply to `HH:MM` strings. -/
def chLt : TimeStr → TimeStr → Bool
  | [], [] => false
  | [], _ :: _ => true
  | _ :: _, [] => false
  | a :: as, b :: bs => if a < b then true else if b < a then false else chLt as bs

/-- Lexicographic non-strict comparison of character lists. -/
def chLe (a b : TimeStr) : Bool := !(chLt b a)

/-- Value of an all-digit character list; `none` models JS `NaN` (a
non-digit character appears).  The empty list gives 0, as JS `Number('')`
does. -/
def digitsVal (acc : Nat) : List Char → Option Nat
  | [] => some acc
  | c :: cs => if c.isDigit then digitsVal (acc * 10 + (c.toNat - '0'.toNat)) cs else none

/-- Splitting a character list at colons: models `str.split(':')`. -/
def splitCols (cur : List Char) : List Char → List (List Char)
  | [] => [cur.reverse]
  | c :: cs => if c = ':' then cur.reverse :: splitCols [] cs else splitCols (c :: cur) cs

/-- Minutes-since-midnight of an `HH:MM` string, as computed by
`generateSlotsForDay`: split at the colon, convert the first two parts,
combine as `hour * 60 + minute`.  `none` models the `NaN` case the source
rejects with an empty day. -/
def parseTimeMinutes (s : TimeStr) : Option Nat :=
  match splitCols [] s with
  | h :: m :: _ =>
    match digitsVal 0 h, digitsVal 0 m with
    | some hh, some mm => some (hh * 60 + mm)
    | _, _ => none
  | _ => none

/-- Two-digit zero padding: models `n.toString().padStart(2, '0')`. -/
def pad2 (n : Nat) : List Char :=
  let s := Nat.toDigits 10 n
  if s.length < 2 then '0' :: s else s

/-- Formatting minutes-since-midnight back to `HH:MM`, as the slot
generator does with `Math.floor(m / 60)` and `m % 60`. -/
def formatTime (m : Nat) : TimeStr :=
  pad2 (m / 60) ++ [':'] ++ pad2 (m % 60)

/-- Status of a time slot. -/
inductive SlotStatus where
  | AVAILABLE
  | BOOKED
  | BLOCKED
deriving DecidableEq

/-- The status values `updateSlotStatus` accepts, mirroring the source's
parameter type `'AVAILABLE' | 'BLOCKED'` (so `BOOKED` is not a reachable
target of that operation, by typing). -/
inductive UpdatableStatus where
  | AVAILABLE
  | BLOCKED
deriving DecidableEq

/-- View an updatable status as a slot status. -/
def UpdatableStatus.toStatus : UpdatableStatus → SlotStatus
  | .AVAILABLE => .AVAILABLE
  | .BLOCKED => .BLOCKED

/-- A persisted `TimeSlot` row. -/
structure TimeSlot where
  id : Nat
  practitionerId : Int
  date : Nat
  startTime : TimeStr
  endTime : TimeStr
  status : SlotStatus
  consultationId : Option Int
deriving DecidableEq

/-- A slot record as built by `generateSlotsForDay`, before the database
assigns an id (the source pushes objects without `id` or
`consultationId`). -/
structure SlotData where
  practitionerId : Int
  date : Nat
  startTime : TimeStr
  endTime : TimeStr
  status : SlotStatus
deriving DecidableEq

/-- A persisted `PractitionerAvailability` row. -/
structure Availability where
  id : Nat
  practitionerId : Int
  dayOfWeek : Int
  startTime : TimeStr
  endTime : TimeStr
  slotDuration : Int
  isActive : Bool
deriving DecidableEq

/-- The raw input of `createAvailabilityRaw`. -/
structure RawAvailabilityData where
  practitionerId : Int
  dayOfWeek : Int
  startTime : TimeStr
  endTime : TimeStr
  slotDuration : Int
  isActive : Bool
deriving DecidableEq

/-- The relational store: both tables with their auto-increment
counters. -/
structure DB where
  avails : List Availability
  availNextId : Nat
  slots : List TimeSlot
  slotNextId : Nat
deriving DecidableEq

/-- The store with both tables empty. -/
def emptyDB : DB := { avails := [], availNextId := 1, slots := [], slotNextId := 1 }

/-- Errors the service surfaces: the three `HttpException`s it throws,
plus the persistence layer's own failure when `update`/`delete` target a
missing row. -/
inductive ServiceError where
  | NotFoundException
  | ConflictException
  | BadRequestException
  | RecordNotFound
deriving DecidableEq

/-- Result record of `batchDeactivate`. -/
structure BatchDeactivateResult where
  deactivatedAvailabilities : Nat
  deletedTimeSlots : Nat
  skippedBookedSlots : Nat
  skippedBookedSlotIds : List Nat
deriving DecidableEq

/-- Weekday of a day number (a fixed relabelling of `Date.getDay()`). -/
def dayOfWeekOf (d : Nat) : Int := ((d % 7 : Nat) : Int)

/-- Insertion step of a stable insertion sort. -/
def insertSorted (le : α → α → Bool) (a : α) : List α → List α
  | [] => [a]
  | b :: bs => if le a b then a :: b :: bs else b :: insertSorted le a bs

/-- Stable sort modelling the database's `orderBy`. -/
def sortBy (le : α → α → Bool) (l : List α) : List α :=
  l.foldr (insertSorted le) []

/-- Ordering key used by `orderBy: { dayOfWeek: 'asc' }`. -/
def availLe (a b : Availability) : Bool := decide (a.dayOfWeek ≤ b.dayOfWeek)

/-- Ordering key used by `orderBy: [{ date: 'asc' }, { startTime: 'asc' }]`. -/
def slotLe (a b : TimeSlot) : Bool :=
  decide (a.date < b.date) || (a.date == b.date && chLe a.startTime b.startTime)

/-- Source `findAllByPractitioner`: the practitioner's active availability
rows, ordered by weekday. -/
def findAllByPractitioner (db : DB) (practitionerId : Int) : List Availability :=
  sortBy availLe (db.avails.filter (fun a => a.practitionerId == practitionerId && a.isActive))

/-- The row produced by the update branch of `createAvailabilityRaw`:
the existing row with the four data fields replaced. -/
def updatedWith (ex : Availability) (data : RawAvailabilityData) : Availability :=
  { ex with
    startTime := data.startTime
    endTime := data.endTime
    slotDuration := data.slotDuration
    isActive := data.isActive }

/-- The fresh row inserted by the create branch of
`createAvailabilityRaw`, with the next id the store assigns. -/
def newRowOf (db : DB) (data : RawAvailabilityData) : Availability :=
  { id := db.availNextId
    practitionerId := data.practitionerId
    dayOfWeek := data.dayOfWeek
    startTime := data.startTime
    endTime := data.endTime
    slotDuration := data.slotDuration
    isActive := data.isActive }

/-- Source `createAvailabilityRaw`: validate, look up an existing active
row for the same practitioner and weekday, update it in place when found,
insert a new row otherwise. -/
def createAvailabilityRaw (db : DB) (data : RawAvailabilityData) :
    Except ServiceError (DB × Availability) :=
  if data.practitionerId ≤ 0 then .error .BadRequestException
  else if data.dayOfWeek < 0 ∨ 6 < data.dayOfWeek then .error .BadRequestException
  else if data.startTime = [] then .error .BadRequestException
  else if data.endTime = [] then .error .BadRequestException
  else if data.slotDuration < 15 ∨ 120 < data.slotDuration then .error .BadRequestException
  else
    match db.avails.find? (fun a =>
        a.practitionerId == data.practitionerId && a.dayOfWeek == data.dayOfWeek && a.isActive) with
    | some existing =>
      let updated := updatedWith existing data
      .ok ({ db with
              avails := db.avails.map (fun a => if a.id == existing.id then updated else a) },
           updated)
    | none =>
      let row := newRowOf db data
      .ok ({ db with avails := db.avails ++ [row], availNextId := db.availNextId + 1 }, row)

/-- First-occurrence de-duplication: models `Array.from(new Set(xs))`. -/
def dedupFirst : List Int → List Int
  | [] => []
  | x :: xs => x :: (dedupFirst xs).filter (fun y => !(y == x))

/-- The day-of-week normalisation of `batchDeactivate`: keep the values in
0..6, de-duplicated in first-occurrence order. -/
def normalizeDays (daysOfWeek : List Int) : List Int :=
  dedupFirst (daysOfWeek.filter (fun d => decide (0 ≤ d) && decide (d ≤ 6)))

/-- The dates `batchDeactivate` considers for slot cleanup: every day in
the 91-day window starting today whose weekday is in the normalised
set. -/
def horizonDates (today : Nat) (validDays : List Int) : List Nat :=
  ((List.range 91).map (fun i => today + i)).filter (fun d => validDays.contains (dayOfWeekOf d))

/-- Source `batchDeactivate`: deactivate matching availability rows in
bulk, then delete non-booked slots on the matching dates of the 90-day
horizon, reporting booked slots as skipped. -/
def batchDeactivate (db : DB) (practitionerId : Int) (daysOfWeek : List Int) (today : Nat) :
    Except ServiceError (DB × BatchDeactivateResult) :=
  if practitionerId == 0 then .error .BadRequestException
  else if daysOfWeek = [] then
    .ok (db, { deactivatedAvailabilities := 0, deletedTimeSlots := 0,
               skippedBookedSlots := 0, skippedBookedSlotIds := [] })
  else
    let validDays := normalizeDays daysOfWeek
    if validDays = [] then .error .BadRequestException
    else
      let availMatch := fun (a : Availability) =>
        a.practitionerId == practitionerId && validDays.contains a.dayOfWeek && a.isActive
      let deactivatedCount := (db.avails.filter availMatch).length
      let avails' := db.avails.map (fun a => if availMatch a then { a with isActive := false } else a)
      let datesToDelete := horizonDates today validDays
      if datesToDelete = [] then
        .ok ({ db with avails := avails' },
             { deactivatedAvailabilities := deactivatedCount, deletedTimeSlots := 0,
               skippedBookedSlots := 0, skippedBookedSlotIds := [] })
      else
        let skippedBookedSlotIds :=
          (db.slots.filter (fun s =>
            s.practitionerId == practitionerId && datesToDelete.contains s.date &&
              s.status == .BOOKED)).map (fun s => s.id)
        let delMatch := fun (s : TimeSlot) =>
          s.practitionerId == practitionerId && datesToDelete.contains s.date &&
            !(s.status == .BOOKED)
        let deletedCount := (db.slots.filter delMatch).length
        let slots' := db.slots.filter (fun s => !(delMatch s))
        .ok ({ db with avails := avails', slots := slots' },
             { deactivatedAvailabilities := deactivatedCount, deletedTimeSlots := deletedCount,
               skippedBookedSlots := skippedBookedSlotIds.length,
               skippedBookedSlotIds := skippedBookedSlotIds })

/-- One slot record pushed by the generation loop: duration-`dur` slot
starting `cur` minutes into day `date`, formatted times, available, no
consultation. -/
def mkSlotData (practitionerId : Int) (date : Nat) (cur dur : Nat) : SlotData :=
  { practitionerId := practitionerId
    date := date
    startTime := formatTime cur
    endTime := formatTime (cur + dur)
    status := .AVAILABLE }

/-- The source's generation while-loop: emit a slot and advance by the
duration while the next slot still ends by the window's end. -/
def genLoop (practitionerId : Int) (date : Nat) (cur et dur : Nat) : List SlotData :=
  if h : 0 < dur ∧ cur + dur ≤ et then
    mkSlotData practitionerId date cur dur :: genLoop practitionerId date (cur + dur) et dur
  else []
termination_by et - cur
decreasing_by omega

/-- Source `generateSlotsForDay`: parse the window's times, reject invalid
times or a non-positive duration with an empty day, then tile the window. -/
def generateSlotsForDay (practitionerId : Int) (date : Nat)
    (startTime endTime : TimeStr) (slotDuration : Int) : List SlotData :=
  match parseTimeMinutes startTime, parseTimeMinutes endTime with
  | some st, some et =>
    if slotDuration ≤ 0 then []
    else genLoop practitionerId date st et slotDuration.toNat
  | _, _ => []

/-- The per-day expansion loop of `generateTimeSlots`: for each day of the
range, expand the active availability row for that weekday, if any. -/
def generateCandidates (avails : List Availability) (practitionerId : Int)
    (startD endD : Nat) : List SlotData :=
  ((List.range (endD + 1 - startD)).map (fun i => startD + i)).flatMap (fun d =>
    match avails.find? (fun a => a.dayOfWeek == dayOfWeekOf d && a.isActive) with
    | some a => generateSlotsForDay practitionerId d a.startTime a.endTime a.slotDuration
    | none => [])

/-- Realisation of generated slot data as rows with consecutive ids, as
`createMany` persists them (no `consultationId` in the payload, hence
null). -/
def realizeAll (base : Nat) : List SlotData → List TimeSlot
  | [] => []
  | c :: cs =>
    { id := base
      practitionerId := c.practitionerId
      date := c.date
      startTime := c.startTime
      endTime := c.endTime
      status := c.status
      consultationId := none } :: realizeAll (base + 1) cs

/-- Bulk insert of generated slots (`timeSlot.createMany`). -/
def insertSlots (db : DB) (cs : List SlotData) : DB :=
  { db with slots := db.slots ++ realizeAll db.slotNextId cs,
            slotNextId := db.slotNextId + cs.length }

/-- Source `getPractitionerSlots`: all slots of the practitioner in the
requested range (default: 30 days from today), ordered by date then start
time. -/
def getPractitionerSlots (db : DB) (practitionerId : Int)
    (startDate endDate : Option Nat) (today : Nat) : List TimeSlot :=
  let start := startDate.getD today
  let stop := endDate.getD (start + 30)
  sortBy slotLe (db.slots.filter (fun s =>
    s.practitionerId == practitionerId && decide (start ≤ s.date) && decide (s.date ≤ stop)))

/-- The existing-slot query of `generateTimeSlots`: all persisted slots
of the practitioner whose date lies in the range. -/
def rangeExistingSlots (db : DB) (practitionerId : Int) (startD endD : Nat) : List TimeSlot :=
  db.slots.filter (fun s =>
    s.practitionerId == practitionerId && decide (startD ≤ s.date) && decide (s.date ≤ endD))

/-- The reconciliation step of `generateTimeSlots`: candidates whose
(date, startTime) key is not among the keys of the already-persisted
slots of the range (the source keeps those keys in a `Set` and filters
with `has`). -/
def newSlotsFor (db : DB) (avails : List Availability) (practitionerId : Int)
    (startD endD : Nat) : List SlotData :=
  let existingSlotKeys := (rangeExistingSlots db practitionerId startD endD).map
    (fun s => (s.date, s.startTime))
  (generateCandidates avails practitionerId startD endD).filter (fun c =>
    !(decide ((c.date, c.startTime) ∈ existingSlotKeys)))

/-- Source `generateTimeSlots`: expand the active availability rows over
the range, filter out candidates whose (date, startTime) key already
exists among the persisted slots of the range, bulk-insert the remainder
and return the merged range contents. -/
def generateTimeSlots (db : DB) (practitionerId : Int) (startD endD : Nat) :
    DB × List TimeSlot :=
  let availabilities := findAllByPractitioner db practitionerId
  if availabilities = [] then (db, [])
  else
    let db' := insertSlots db (newSlotsFor db availabilities practitionerId startD endD)
    (db', getPractitionerSlots db' practitionerId (some startD) (some endD) startD)

/-- Source `getAvailableSlots`: slots of the practitioner in range that
are strictly in the future (later date, or today with a start time after
the current time), ordered by date then start time.  Note the query has
no status condition. -/
def getAvailableSlots (db : DB) (practitionerId : Int) (startD endD : Nat)
    (currentDate : Nat) (nowTime : TimeStr) : List TimeSlot :=
  sortBy slotLe (db.slots.filter (fun s =>
    s.practitionerId == practitionerId && decide (startD ≤ s.date) && decide (s.date ≤ endD) &&
      (decide (currentDate < s.date) ||
        (s.date == currentDate && chLt nowTime s.startTime))))

/-- The read phase of `bookTimeSlot` (`timeSlot.findUnique`). -/
def bookRead (db : DB) (timeSlotId : Nat) : Option TimeSlot :=
  db.slots.find? (fun s => s.id == timeSlotId)

/-- The check-and-write phase of `bookTimeSlot`: the status test runs on
the snapshot `ts` obtained by the read phase, the update acts on the
current row with that id. -/
def bookCommit (db : DB) (timeSlotId : Nat) (consultationId : Int) (ts : TimeSlot) :
    Except ServiceError (DB × TimeSlot) :=
  if ts.status ≠ .AVAILABLE then .error .ConflictException
  else
    match db.slots.find? (fun s => s.id == timeSlotId) with
    | none => .error .RecordNotFound
    | some cur =>
      let cur' := { cur with status := .BOOKED, consultationId := some consultationId }
      .ok ({ db with slots := db.slots.map (fun s => if s.id == timeSlotId then cur' else s) },
           cur')

/-- Source `bookTimeSlot`: find the slot, reject a missing slot and a
non-available slot, otherwise set status `BOOKED` and the consultation
id. -/
def bookTimeSlot (db : DB) (timeSlotId : Nat) (consultationId : Int) :
    Except ServiceError (DB × TimeSlot) :=
  match bookRead db timeSlotId with
  | none => .error .NotFoundException
  | some ts => bookCommit db timeSlotId consultationId ts

/-- Source `releaseTimeSlot`: unconditionally set the slot available and
clear its consultation id (the only failure is the persistence layer's
own, when the row is missing). -/
def releaseTimeSlot (db : DB) (timeSlotId : Nat) : Except ServiceError (DB × TimeSlot) :=
  match db.slots.find? (fun s => s.id == timeSlotId) with
  | none => .error .RecordNotFound
  | some cur =>
    let cur' := { cur with status := .AVAILABLE, consultationId := none }
    .ok ({ db with slots := db.slots.map (fun s => if s.id == timeSlotId then cur' else s) },
         cur')

/-- Source `updateSlotStatus`: find the slot owned by the practitioner,
reject a missing or foreign slot and a booked slot, otherwise set the
requested status (the consultation id is not touched). -/
def updateSlotStatus (db : DB) (slotId : Nat) (status : UpdatableStatus)
    (practitionerId : Int) : Except ServiceError (DB × TimeSlot) :=
  match db.slots.find? (fun s => s.id == slotId && s.practitionerId == practitionerId) with
  | none => .error .NotFoundException
  | some ts =>
    if ts.status == .BOOKED then .error .ConflictException
    else
      let ts' := { ts with status := status.toStatus }
      .ok ({ db with slots := db.slots.map (fun s => if s.id == slotId then ts' else s) }, ts')

/-- Source `deleteTimeSlot`: find the slot owned by the practitioner,
reject a missing or foreign slot and a booked slot, otherwise remove the
row. -/
def deleteTimeSlot (db : DB) (slotId : Nat) (practitionerId : Int) :
    Except ServiceError (DB × TimeSlot) :=
  match db.slots.find? (fun s => s.id == slotId && s.practitionerId == practitionerId) with
  | none => .error .NotFoundException
  | some ts =>
    if ts.status == .BOOKED then .error .ConflictException
    else .ok ({ db with slots := db.slots.filter (fun s => !(s.id == slotId)) }, ts)

/-! ### Closed form of the day-tiling loop -/

theorem genLoop_eq_aux (pid : Int) (date : Nat) (et d : Nat) (hd : 0 < d) :
    ∀ n, ∀ cur, et - cur ≤ n →
      genLoop pid date cur et d =
        (List.range ((et - cur) / d)).map (fun i => mkSlotData pid date (cur + i * d) d) := by
  intro n
  induction n with
  | zero =>
    intro cur hc
    rw [genLoop]
    have hno : ¬(0 < d ∧ cur + d ≤ et) := by omega
    rw [dif_neg hno]
    have h0 : (et - cur) / d = 0 := Nat.div_eq_of_lt (by omega)
    rw [h0]
    rfl
  | succ n ih =>
    intro cur hc
    rw [genLoop]
    by_cases hcase : cur + d ≤ et
    · rw [dif_pos ⟨hd, hcase⟩]
      rw [ih (cur + d) (by omega)]
      have hn : (et - cur) / d = (et - (cur + d)) / d + 1 := by
        have he : et - cur = (et - (cur + d)) + d := by omega
        rw [he, Nat.add_div_right _ hd]
      rw [hn, List.range_succ_eq_map]
      simp only [List.map_cons, List.map_map]
      congr 1
      · norm_num
      · refine List.map_congr_left ?_
        intro i _
        simp only [Function.comp]
        congr 1
        rw [Nat.succ_mul]
        ring
    · rw [dif_neg (by omega)]
      have h0 : (et - cur) / d = 0 := Nat.div_eq_of_lt (by omega)
      rw [h0]
      rfl

theorem genLoop_eq (pid : Int) (date cur et d : Nat) (hd : 0 < d) :
    genLoop pid date cur et d =
      (List.range ((et - cur) / d)).map (fun i => mkSlotData pid date (cur + i * d) d) :=
  genLoop_eq_aux pid date et d hd (et - cur) cur le_rfl

theorem generateSlotsForDay_eq (pid : Int) (date : Nat) (s e : TimeStr) (dur : Int)
    (st et : Nat) (hs : parseTimeMinutes s = some st) (he : parseTimeMinutes e = some et)
    (hd : 0 < dur) :
    generateSlotsForDay pid date s e dur =
      (List.range ((et - st) / dur.toNat)).map
        (fun i => mkSlotData pid date (st + i * dur.toNat) dur.toNat) := by
  simp only [generateSlotsForDay, hs, he]
  rw [if_neg (by omega)]
  exact genLoop_eq pid date st et dur.toNat (by omega)

theorem map_range_head (f : Nat → α) (n : Nat) (hn : 0 < n) :
    ((List.range n).map f).head? = some (f 0) := by
  cases n with
  | zero => omega
  | succ m => rw [List.range_succ_eq_map]; rfl

theorem map_range_getLast (f : Nat → α) (n : Nat) :
    ((List.range (n + 1)).map f).getLast? = some (f n) := by
  rw [List.range_succ, List.map_append]
  simp

/-! ### Claim C3: tiling correctness of day expansion -/

/-- C3: for a valid window, day expansion emits consecutive slots of
exactly `slotDuration` minutes starting at the window's start while the
next slot still fits before the window's end (trailing remainder
dropped): the emitted list is exactly `(et - st) / dur` slots, the `i`-th
starting `st + i * dur` minutes into the day and lasting `dur` minutes
(`mkSlotData` formats start `cur` and end `cur + dur`).  In particular a
09:00 - 17:00 window with duration 30 yields exactly 16 slots, the first
09:00 - 09:30 and the last 16:30 - 17:00, and a 09:00 - 17:05 window with
duration 30 also yields exactly 16 slots. -/
theorem generateSlotsForDay_tiling (pid : Int) (date : Nat) :
    (∀ (s e : TimeStr) (dur : Int) (st et : Nat),
      parseTimeMinutes s = some st → parseTimeMinutes e = some et → 0 < dur →
      generateSlotsForDay pid date s e dur =
        (List.range ((et - st) / dur.toNat)).map
          (fun i => mkSlotData pid date (st + i * dur.toNat) dur.toNat)) ∧
    (∀ cur dur : Nat, (mkSlotData pid date cur dur).startTime = formatTime cur ∧
      (mkSlotData pid date cur dur).endTime = formatTime (cur + dur)) ∧
    ((generateSlotsForDay pid date "09:00".toList "17:00".toList 30).length = 16 ∧
      (generateSlotsForDay pid date "09:00".toList "17:00".toList 30).head? =
        some (mkSlotData pid date 540 30) ∧
      (generateSlotsForDay pid date "09:00".toList "17:00".toList 30).getLast? =
        some (mkSlotData pid date 990 30)) ∧
    ((generateSlotsForDay pid date "09:00".toList "17:05".toList 30).length = 16) ∧
    (formatTime 540 = "09:00".toList ∧ formatTime 570 = "09:30".toList ∧
      formatTime 990 = "16:30".toList ∧ formatTime 1020 = "17:00".toList) := by
  have hgen := fun s e dur st et hs he hd =>
    generateSlotsForDay_eq pid date s e dur st et hs he hd
  have h1700 := hgen "09:00".toList "17:00".toList 30 540 1020 (by decide) (by decide)
    (by decide)
  have h1705 := hgen "09:00".toList "17:05".toList 30 540 1025 (by decide) (by decide)
    (by decide)
  rw [show (30 : Int).toNat = 30 from rfl] at h1700 h1705
  have hv00 : ((1020 : Nat) - 540) / 30 = 16 := by decide
  have hv05 : ((1025 : Nat) - 540) / 30 = 16 := by decide
  rw [hv00] at h1700
  rw [hv05] at h1705
  refine ⟨hgen, fun cur dur => ⟨rfl, rfl⟩, ⟨?_, ?_, ?_⟩, ?_, by decide, by decide, by decide,
    by decide⟩
  · rw [h1700]
    simp
  · rw [h1700]
    rw [map_range_head _ 16 (by norm_num)]
  · rw [h1700]
    have h15 : (16 : Nat) = 15 + 1 := by norm_num
    rw [h15, map_range_getLast]
  · rw [h1705]
    simp

/-- Witness for C3 at concrete inputs: a 09:00 - 10:00 window with
duration 30 tiles into the closed form. -/
theorem generateSlotsForDay_tiling_witness :
    generateSlotsForDay 7 3 "09:00".toList "10:00".toList 30 =
      (List.range (((600 : Nat) - 540) / (30 : Int).toNat)).map
        (fun i => mkSlotData 7 3 (540 + i * (30 : Int).toNat) (30 : Int).toNat) :=
  (generateSlotsForDay_tiling 7 3).1 "09:00".toList "10:00".toList 30 540 600
    (by decide) (by decide) (by decide)

/-! ### Claim C1: bookTimeSlot behaviour -/

/-- C1: for every slot id and consultation id, `bookTimeSlot` fails with
`NotFoundException` when no slot with that id exists, fails with
`ConflictException` when the slot's status is not AVAILABLE, and
otherwise updates the slot to status BOOKED with the given consultation
id. -/
theorem bookTimeSlot_spec (db : DB) (slotId : Nat) (cid : Int) :
    (db.slots.find? (fun s => s.id == slotId) = none →
      bookTimeSlot db slotId cid = .error .NotFoundException) ∧
    (∀ ts, db.slots.find? (fun s => s.id == slotId) = some ts →
      (ts.status ≠ .AVAILABLE → bookTimeSlot db slotId cid = .error .ConflictException) ∧
      (ts.status = .AVAILABLE →
        bookTimeSlot db slotId cid = .ok
          ({ db with slots := db.slots.map (fun s =>
              if s.id == slotId then { ts with status := .BOOKED, consultationId := some cid }
              else s) },
           { ts with status := .BOOKED, consultationId := some cid }))) := by
  constructor
  · intro hnone
    simp [bookTimeSlot, bookRead, hnone]
  · intro ts hts
    constructor
    · intro hst
      simp [bookTimeSlot, bookRead, hts, bookCommit, hst]
    · intro hst
      simp [bookTimeSlot, bookRead, hts, bookCommit, hst]

/-- A single available slot, used to instantiate booking claims. -/
def wSlotA : TimeSlot :=
  { id := 1, practitionerId := 7, date := 3, startTime := "09:00".toList,
    endTime := "09:30".toList, status := .AVAILABLE, consultationId := none }

/-- A store holding only `wSlotA`. -/
def wDbA : DB := { avails := [], availNextId := 1, slots := [wSlotA], slotNextId := 2 }

/-- Witness for C1: booking the available slot of `wDbA` succeeds and
records the consultation id. -/
theorem bookTimeSlot_spec_witness :
    bookTimeSlot wDbA 1 42 = .ok
      ({ wDbA with slots := wDbA.slots.map (fun s =>
          if s.id == 1 then { wSlotA with status := .BOOKED, consultationId := some 42 }
          else s) },
       { wSlotA with status := .BOOKED, consultationId := some 42 }) :=
  ((bookTimeSlot_spec wDbA 1 42).2 wSlotA (by decide)).2 rfl

/-! ### Claim C10: releaseTimeSlot has no precondition -/

/-- C10: for every existing slot id, `releaseTimeSlot` unconditionally
sets the slot available with a null consultation id — no status or
ownership precondition is checked, so in particular a BLOCKED slot is
silently turned AVAILABLE. -/
theorem releaseTimeSlot_unconditional (db : DB) (slotId : Nat) :
    ∀ ts, db.slots.find? (fun s => s.id == slotId) = some ts →
      releaseTimeSlot db slotId = .ok
        ({ db with slots := db.slots.map (fun s =>
            if s.id == slotId then { ts with status := .AVAILABLE, consultationId := none }
            else s) },
         { ts with status := .AVAILABLE, consultationId := none }) := by
  intro ts hts
  simp [releaseTimeSlot, hts]

/-- A single blocked slot, used to instantiate the release claim. -/
def wSlotB : TimeSlot :=
  { id := 2, practitionerId := 7, date := 3, startTime := "10:00".toList,
    endTime := "10:30".toList, status := .BLOCKED, consultationId := none }

/-- A store holding only `wSlotB`. -/
def wDbB : DB := { avails := [], availNextId := 1, slots := [wSlotB], slotNextId := 3 }

/-- Witness for C10: releasing the BLOCKED slot of `wDbB` succeeds and
leaves it AVAILABLE. -/
theorem releaseTimeSlot_unconditional_witness :
    releaseTimeSlot wDbB 2 = .ok
      ({ wDbB with slots := wDbB.slots.map (fun s =>
          if s.id == 2 then { wSlotB with status := .AVAILABLE, consultationId := none }
          else s) },
       { wSlotB with status := .AVAILABLE, consultationId := none }) :=
  releaseTimeSlot_unconditional wDbB 2 wSlotB (by decide)

/-! ### Claim C2: getAvailableSlots does not filter by status -/

/-- A booked slot lying strictly in the future of day 4. -/
def bookedFutureSlot : TimeSlot :=
  { id := 5, practitionerId := 7, date := 5, startTime := "09:00".toList,
    endTime := "09:30".toList, status := .BOOKED, consultationId := some 42 }

/-- A store holding only `bookedFutureSlot`. -/
def dbWithBookedFutureSlot : DB :=
  { avails := [], availNextId := 1, slots := [bookedFutureSlot], slotNextId := 6 }

/-- C2 (code bug): the `getAvailableSlots` query has no status condition,
so a BOOKED slot in range and strictly in the future is returned, where
the specification promises only AVAILABLE slots. -/
theorem getAvailableSlots_includes_booked_slot :
    getAvailableSlots dbWithBookedFutureSlot 7 0 10 4 "12:00".toList = [bookedFutureSlot] ∧
    bookedFutureSlot.status = .BOOKED := by
  exact ⟨rfl, rfl⟩

/-! ### Claim C9: booking is read-then-write, not a conditional update -/

/-- A single available slot subject to two racing bookings. -/
def raceSlot : TimeSlot :=
  { id := 9, practitionerId := 7, date := 5, startTime := "09:00".toList,
    endTime := "09:30".toList, status := .AVAILABLE, consultationId := none }

/-- A store holding only `raceSlot`. -/
def raceDb : DB := { avails := [], availNextId := 1, slots := [raceSlot], slotNextId := 10 }

/-- The store after the first racing booking (consultation 42) commits. -/
def raceDbA : DB :=
  { raceDb with slots := [{ raceSlot with status := .BOOKED, consultationId := some 42 }] }

/-- C9 (code bug): `bookTimeSlot` checks the status on the snapshot
returned by its read phase and then writes unconditionally, so in the
interleaving read(A), read(B), commit(A), commit(B) both bookings
succeed — no `ConflictException` is raised — and the second commit
silently overwrites the first consultation id.  A single atomic
conditional update would instead let exactly one of the two succeed. -/
theorem bookTimeSlot_race_both_succeed :
    bookRead raceDb 9 = some raceSlot ∧
    bookCommit raceDb 9 42 raceSlot =
      .ok (raceDbA, { raceSlot with status := .BOOKED, consultationId := some 42 }) ∧
    bookCommit raceDbA 9 43 raceSlot =
      .ok ({ raceDb with
              slots := [{ raceSlot with status := .BOOKED, consultationId := some 43 }] },
           { raceSlot with status := .BOOKED, consultationId := some 43 }) := by
  exact ⟨rfl, rfl, rfl⟩

/-! ### Claim C6: booked slots are never removed or altered -/

/-- C6: no operation removes or alters a BOOKED slot: `deleteTimeSlot`
and `updateSlotStatus` fail with `ConflictException` when the target slot
is BOOKED, and `batchDeactivate` keeps every BOOKED slot, deletes only
rows already present, and reports exactly the booked slots of the cleanup
range as skipped. -/
theorem bookedSlotProtection (db : DB) (slotId : Nat) (pid : Int) (status : UpdatableStatus)
    (daysOfWeek : List Int) (today : Nat) :
    (∀ ts, db.slots.find? (fun s => s.id == slotId && s.practitionerId == pid) = some ts →
      ts.status = .BOOKED → deleteTimeSlot db slotId pid = .error .ConflictException) ∧
    (∀ ts, db.slots.find? (fun s => s.id == slotId && s.practitionerId == pid) = some ts →
      ts.status = .BOOKED → updateSlotStatus db slotId status pid = .error .ConflictException) ∧
    (∀ db' res, batchDeactivate db pid daysOfWeek today = .ok (db', res) →
      (∀ s ∈ db.slots, s.status = .BOOKED → s ∈ db'.slots) ∧
      (∀ s ∈ db'.slots, s ∈ db.slots) ∧
      res.skippedBookedSlotIds = (db.slots.filter (fun s =>
        s.practitionerId == pid &&
          (horizonDates today (normalizeDays daysOfWeek)).contains s.date &&
          s.status == .BOOKED)).map (fun s => s.id)) := by
  refine ⟨?_, ?_, ?_⟩
  · intro ts hts hb
    simp [deleteTimeSlot, hts, hb]
  · intro ts hts hb
    simp [updateSlotStatus, hts, hb]
  · intro db' res h
    rw [batchDeactivate] at h
    by_cases h0 : pid == 0
    · rw [if_pos h0] at h
      cases h
    rw [if_neg h0] at h
    by_cases hdw : daysOfWeek = []
    · rw [if_pos hdw] at h
      rw [Except.ok.injEq, Prod.mk.injEq] at h
      obtain ⟨hdb, hres⟩ := h
      subst hdb
      subst hres
      refine ⟨fun s hs _ => hs, fun s hs => hs, ?_⟩
      subst hdw
      have hzero : horizonDates today (normalizeDays []) = [] := rfl
      rw [hzero]
      simp
    rw [if_neg hdw] at h
    by_cases hvd : normalizeDays daysOfWeek = []
    · simp only [hvd, if_pos] at h
      cases h
    simp only [if_neg hvd] at h
    by_cases hdt : horizonDates today (normalizeDays daysOfWeek) = []
    · rw [if_pos hdt] at h
      rw [Except.ok.injEq, Prod.mk.injEq] at h
      obtain ⟨hdb, hres⟩ := h
      subst hdb
      subst hres
      refine ⟨fun s hs _ => hs, fun s hs => hs, ?_⟩
      rw [hdt]
      simp
    rw [if_neg hdt] at h
    rw [Except.ok.injEq, Prod.mk.injEq] at h
    obtain ⟨hdb, hres⟩ := h
    subst hdb
    subst hres
    refine ⟨?_, ?_, rfl⟩
    · intro s hs hb
      simp only [List.mem_filter]
      refine ⟨hs, ?_⟩
      simp [hb]
    · intro s hs
      exact (List.mem_filter.mp hs).1

/-- A booked slot on day 2 (weekday 2) for the C6 witness. -/
def cBooked : TimeSlot :=
  { id := 1, practitionerId := 7, date := 2, startTime := "09:00".toList,
    endTime := "09:30".toList, status := .BOOKED, consultationId := some 42 }

/-- An available slot on the same day for the C6 witness. -/
def cAvail : TimeSlot :=
  { id := 2, practitionerId := 7, date := 2, startTime := "09:30".toList,
    endTime := "10:00".toList, status := .AVAILABLE, consultationId := none }

/-- A store holding the two slots above. -/
def cDb : DB := { avails := [], availNextId := 1, slots := [cBooked, cAvail], slotNextId := 3 }

/-- The store after batch-deactivating weekday 2 of `cDb`: the available
slot is deleted, the booked one kept. -/
def cDbAfter : DB := { avails := [], availNextId := 1, slots := [cBooked], slotNextId := 3 }

/-- The result record reported for that batch deactivation. -/
def cRes : BatchDeactivateResult :=
  { deactivatedAvailabilities := 0, deletedTimeSlots := 1,
    skippedBookedSlots := 1, skippedBookedSlotIds := [1] }

/-- Witness for C6: deleting or re-labelling the booked slot of `cDb` is
a conflict, and batch-deactivating weekday 2 keeps the booked slot. -/
theorem bookedSlotProtection_witness :
    deleteTimeSlot cDb 1 7 = .error .ConflictException ∧
    updateSlotStatus cDb 1 .BLOCKED 7 = .error .ConflictException ∧
    cBooked ∈ cDbAfter.slots :=
  ⟨(bookedSlotProtection cDb 1 7 .BLOCKED [2] 0).1 cBooked (by decide) rfl,
   (bookedSlotProtection cDb 1 7 .BLOCKED [2] 0).2.1 cBooked (by decide) rfl,
   (((bookedSlotProtection cDb 1 7 .BLOCKED [2] 0).2.2 cDbAfter cRes rfl).1
      cBooked (by decide) rfl)⟩

/-! ### Claim C8: day-of-week normalisation of batchDeactivate -/

theorem mem_dedupFirst (x : Int) : ∀ l, x ∈ dedupFirst l ↔ x ∈ l := by
  intro l
  induction l with
  | nil => rfl
  | cons a l ih =>
    by_cases hx : x = a
    · subst hx
      simp [dedupFirst]
    · simp [dedupFirst, List.mem_filter, hx, ih]

theorem nodup_dedupFirst : ∀ l, (dedupFirst l).Nodup := by
  intro l
  induction l with
  | nil => exact List.nodup_nil
  | cons a l ih =>
    refine List.Nodup.cons ?_ (List.Nodup.filter _ ih)
    intro hmem
    have := (List.mem_filter.mp hmem).2
    simp at this

/-- C8 counterexample: the claim says invalid day-of-week entries are
dropped without an error, but a non-empty list whose entries are all
invalid makes `batchDeactivate` fail with `BadRequestException` instead of
proceeding as a no-op. -/
theorem batchDeactivate_all_invalid_is_error :
    batchDeactivate emptyDB 7 [99] 0 = .error .BadRequestException ∧
    normalizeDays [99] = [] := ⟨rfl, rfl⟩

/-- C8 (amended): `batchDeactivate` normalizes `daysOfWeek` to the
de-duplicated list of its entries lying in 0..6; an empty input is a
no-op returning all-zero counts; invalid entries are dropped without an
error provided at least one valid entry remains, the bulk deactivation
then using exactly the normalised set; but a non-empty input with no
valid entry fails with `BadRequestException`. -/
theorem batchDeactivate_normalization (db : DB) (pid : Int) (daysOfWeek : List Int)
    (today : Nat) (hpid : pid ≠ 0) :
    (daysOfWeek = [] →
      batchDeactivate db pid daysOfWeek today =
        .ok (db, { deactivatedAvailabilities := 0, deletedTimeSlots := 0,
                   skippedBookedSlots := 0, skippedBookedSlotIds := [] })) ∧
    ((normalizeDays daysOfWeek).Nodup ∧
      (∀ d, d ∈ normalizeDays daysOfWeek ↔ d ∈ daysOfWeek ∧ 0 ≤ d ∧ d ≤ 6)) ∧
    (daysOfWeek ≠ [] → normalizeDays daysOfWeek = [] →
      batchDeactivate db pid daysOfWeek today = .error .BadRequestException) ∧
    (normalizeDays daysOfWeek ≠ [] →
      ∃ db' res, batchDeactivate db pid daysOfWeek today = .ok (db', res) ∧
        db'.avails = db.avails.map (fun a =>
          if a.practitionerId == pid && (normalizeDays daysOfWeek).contains a.dayOfWeek &&
              a.isActive
          then { a with isActive := false } else a)) := by
  have h0 : (pid == 0) = false := by
    simp [hpid]
  refine ⟨?_, ⟨nodup_dedupFirst _, ?_⟩, ?_, ?_⟩
  · intro hdw
    rw [batchDeactivate, h0]
    simp [hdw]
  · intro d
    rw [normalizeDays, mem_dedupFirst, List.mem_filter]
    simp
  · intro hdw hvd
    rw [batchDeactivate, h0]
    simp only [Bool.false_eq_true, if_false, if_neg hdw]
    rw [if_pos hvd]
  · intro hvd
    have hdw : daysOfWeek ≠ [] := by
      intro hdw
      subst hdw
      exact hvd rfl
    rw [batchDeactivate, h0]
    simp only [Bool.false_eq_true, if_false, if_neg hdw, if_neg hvd]
    by_cases hdt : horizonDates today (normalizeDays daysOfWeek) = []
    · rw [if_pos hdt]
      exact ⟨_, _, rfl, rfl⟩
    · rw [if_neg hdt]
      exact ⟨_, _, rfl, rfl⟩

/-- Witness for C8: an empty day list returns zero counts, and an
all-invalid non-empty day list is rejected. -/
theorem batchDeactivate_normalization_witness :
    batchDeactivate emptyDB 7 [] 0 =
      .ok (emptyDB, { deactivatedAvailabilities := 0, deletedTimeSlots := 0,
                      skippedBookedSlots := 0, skippedBookedSlotIds := [] }) ∧
    batchDeactivate emptyDB 7 [9] 0 = .error .BadRequestException :=
  ⟨(batchDeactivate_normalization emptyDB 7 [] 0 (by decide)).1 rfl,
   (batchDeactivate_normalization emptyDB 7 [9] 0 (by decide)).2.2.1 (by decide) rfl⟩

/-! ### Shape of generated candidates and inserted rows -/

theorem genLoop_mem (pid : Int) (date : Nat) (cur et d : Nat) :
    ∀ c ∈ genLoop pid date cur et d,
      c.practitionerId = pid ∧ c.date = date ∧ c.status = .AVAILABLE := by
  rcases Nat.eq_zero_or_pos d with hd | hd
  · subst hd
    rw [genLoop]
    simp
  · rw [genLoop_eq pid date cur et d hd]
    intro c hc
    rw [List.mem_map] at hc
    obtain ⟨i, _, rfl⟩ := hc
    exact ⟨rfl, rfl, rfl⟩

theorem generateSlotsForDay_mem (pid : Int) (date : Nat) (s e : TimeStr) (dur : Int) :
    ∀ c ∈ generateSlotsForDay pid date s e dur,
      c.practitionerId = pid ∧ c.date = date ∧ c.status = .AVAILABLE := by
  intro c hc
  unfold generateSlotsForDay at hc
  split at hc
  · split at hc
    · simp at hc
    · exact genLoop_mem _ _ _ _ _ c hc
  · simp at hc

theorem generateCandidates_mem (avails : List Availability) (pid : Int) (startD endD : Nat) :
    ∀ c ∈ generateCandidates avails pid startD endD,
      c.practitionerId = pid ∧ startD ≤ c.date ∧ c.date ≤ endD ∧ c.status = .AVAILABLE := by
  intro c hc
  unfold generateCandidates at hc
  rw [List.mem_flatMap] at hc
  obtain ⟨d, hd, hcd⟩ := hc
  rw [List.mem_map] at hd
  obtain ⟨i, hi, rfl⟩ := hd
  rw [List.mem_range] at hi
  split at hcd
  · obtain ⟨h1, h2, h3⟩ := generateSlotsForDay_mem _ _ _ _ _ c hcd
    exact ⟨h1, by omega, by omega, h3⟩
  · simp at hcd

theorem realizeAll_mem_fwd (cs : List SlotData) :
    ∀ base, ∀ r ∈ realizeAll base cs,
      ∃ c ∈ cs, r.practitionerId = c.practitionerId ∧ r.date = c.date ∧
        r.startTime = c.startTime ∧ r.status = c.status ∧ r.consultationId = none := by
  induction cs with
  | nil =>
    intro base r hr
    simp [realizeAll] at hr
  | cons c cs ih =>
    intro base r hr
    rw [realizeAll] at hr
    rcases List.mem_cons.mp hr with hr | hr
    · subst hr
      exact ⟨c, List.mem_cons_self c cs, rfl, rfl, rfl, rfl, rfl⟩
    · obtain ⟨c', hc', hfields⟩ := ih (base + 1) r hr
      exact ⟨c', List.mem_cons_of_mem c hc', hfields⟩

theorem realizeAll_mem_rev (cs : List SlotData) :
    ∀ base, ∀ c ∈ cs,
      ∃ r ∈ realizeAll base cs, r.practitionerId = c.practitionerId ∧ r.date = c.date ∧
        r.startTime = c.startTime ∧ r.status = c.status ∧ r.consultationId = none := by
  induction cs with
  | nil =>
    intro base c hc
    simp at hc
  | cons c0 cs ih =>
    intro base c hc
    rcases List.mem_cons.mp hc with hc | hc
    · refine ⟨{ id := base, practitionerId := c0.practitionerId, date := c0.date,
                startTime := c0.startTime, endTime := c0.endTime, status := c0.status,
                consultationId := none }, ?_, by rw [hc], by rw [hc], by rw [hc],
                by rw [hc], rfl⟩
      rw [realizeAll]
      exact List.mem_cons_self _ _
    · obtain ⟨r, hr, hfields⟩ := ih (base + 1) c hc
      refine ⟨r, ?_, hfields⟩
      rw [realizeAll]
      exact List.mem_cons_of_mem _ hr

theorem insertSlots_slots (db : DB) (cs : List SlotData) :
    (insertSlots db cs).slots = db.slots ++ realizeAll db.slotNextId cs := rfl

theorem insertSlots_nil (db : DB) : insertSlots db [] = db := by
  cases db
  simp [insertSlots, realizeAll]

theorem findAllByPractitioner_insertSlots (db : DB) (cs : List SlotData) (pid : Int) :
    findAllByPractitioner (insertSlots db cs) pid = findAllByPractitioner db pid := rfl

/-! ### Claim C5: generation is idempotent -/

theorem generateTimeSlots_fst (db : DB) (pid : Int) (startD endD : Nat) :
    (generateTimeSlots db pid startD endD).1 =
      if findAllByPractitioner db pid = [] then db
      else insertSlots db (newSlotsFor db (findAllByPractitioner db pid) pid startD endD) := by
  unfold generateTimeSlots
  by_cases hav : findAllByPractitioner db pid = [] <;> simp [hav]

theorem newSlotsFor_after_insert (db : DB) (A : List Availability) (pid : Int)
    (startD endD : Nat) :
    newSlotsFor (insertSlots db (newSlotsFor db A pid startD endD)) A pid startD endD = [] := by
  set ns := newSlotsFor db A pid startD endD with hns
  rw [newSlotsFor]
  rw [List.filter_eq_nil_iff]
  intro c hc
  simp only [Bool.not_eq_true, Bool.not_eq_false', decide_eq_true_eq]
  by_cases hk : (c.date, c.startTime) ∈
      (rangeExistingSlots db pid startD endD).map (fun s => (s.date, s.startTime))
  · have hre : rangeExistingSlots (insertSlots db ns) pid startD endD =
        rangeExistingSlots db pid startD endD ++
          (realizeAll db.slotNextId ns).filter (fun s =>
            s.practitionerId == pid && decide (startD ≤ s.date) && decide (s.date ≤ endD)) := by
      unfold rangeExistingSlots
      rw [insertSlots_slots, List.filter_append]
    rw [hre, List.map_append]
    exact List.mem_append_left _ hk
  · have hcns : c ∈ ns := by
      rw [hns, newSlotsFor, List.mem_filter]
      exact ⟨hc, by simp [hk]⟩
    obtain ⟨r, hr, hpid, hdate, hstart, hstatus, hcons⟩ :=
      realizeAll_mem_rev ns db.slotNextId c hcns
    obtain ⟨hcpid, hcs, hce, _⟩ := generateCandidates_mem A pid startD endD c hc
    have hrmem : r ∈ (insertSlots db ns).slots := by
      rw [insertSlots_slots]
      exact List.mem_append_right _ hr
    have hrfilter : r ∈ rangeExistingSlots (insertSlots db ns) pid startD endD := by
      unfold rangeExistingSlots
      rw [List.mem_filter]
      refine ⟨hrmem, ?_⟩
      simp [hpid, hcpid, hdate, hcs, hce]
    rw [List.mem_map]
    exact ⟨r, hrfilter, by rw [hdate, hstart]⟩

/-- C5: generation is idempotent — running `generateTimeSlots` twice over
the same range leaves the same persisted store as running it once; the
second run inserts no slot whose (date, startTime) key already exists for
the practitioner in the range. -/
theorem generateTimeSlots_idempotent (db : DB) (pid : Int) (startD endD : Nat) :
    (generateTimeSlots (generateTimeSlots db pid startD endD).1 pid startD endD).1 =
      (generateTimeSlots db pid startD endD).1 := by
  rw [generateTimeSlots_fst db pid startD endD]
  by_cases hav : findAllByPractitioner db pid = []
  · rw [if_pos hav]
    rw [generateTimeSlots_fst db pid startD endD, if_pos hav]
  · rw [if_neg hav]
    rw [generateTimeSlots_fst]
    rw [findAllByPractitioner_insertSlots]
    rw [if_neg hav]
    rw [newSlotsFor_after_insert]
    exact insertSlots_nil _

/-! ### Claim C7: the consultation-id invariant -/

/-- The status/consultation coupling of a single slot: BOOKED carries a
consultation id, AVAILABLE and BLOCKED carry null. -/
def consultationInv (s : TimeSlot) : Prop :=
  (s.status = .BOOKED → s.consultationId ≠ none) ∧
  (s.status ≠ .BOOKED → s.consultationId = none)

/-- The coupling holds for every persisted slot. -/
def ConsInv (db : DB) : Prop := ∀ s ∈ db.slots, consultationInv s

theorem batchDeactivate_ok_slots_sub (db : DB) (pid : Int) (days : List Int) (today : Nat)
    (db' : DB) (res : BatchDeactivateResult)
    (h : batchDeactivate db pid days today = .ok (db', res)) :
    ∀ s ∈ db'.slots, s ∈ db.slots := by
  rw [batchDeactivate] at h
  by_cases h0 : pid == 0
  · rw [if_pos h0] at h
    cases h
  rw [if_neg h0] at h
  by_cases hdw : days = []
  · rw [if_pos hdw] at h
    rw [Except.ok.injEq, Prod.mk.injEq] at h
    obtain ⟨hdb, -⟩ := h
    subst hdb
    exact fun s hs => hs
  rw [if_neg hdw] at h
  by_cases hvd : normalizeDays days = []
  · simp only [hvd, if_pos] at h
    cases h
  simp only [if_neg hvd] at h
  by_cases hdt : horizonDates today (normalizeDays days) = []
  · rw [if_pos hdt] at h
    rw [Except.ok.injEq, Prod.mk.injEq] at h
    obtain ⟨hdb, -⟩ := h
    subst hdb
    exact fun s hs => hs
  rw [if_neg hdt] at h
  rw [Except.ok.injEq, Prod.mk.injEq] at h
  obtain ⟨hdb, -⟩ := h
  subst hdb
  exact fun s hs => (List.mem_filter.mp hs).1

/-- C7: every operation preserves the invariant that a BOOKED slot
carries a non-null consultation id while AVAILABLE and BLOCKED slots
carry null: generation inserts AVAILABLE slots with null consultation,
booking sets both fields together, release clears both, status updates
keep the (null) consultation of a non-booked slot, deletion and batch
cleanup only remove rows. -/
theorem consultationInv_preserved (db : DB) (pid cid : Int) (slotId : Nat)
    (status : UpdatableStatus) (daysOfWeek : List Int) (today startD endD : Nat) :
    (ConsInv db → ConsInv (generateTimeSlots db pid startD endD).1) ∧
    (ConsInv db → ∀ db' r, bookTimeSlot db slotId cid = .ok (db', r) → ConsInv db') ∧
    (ConsInv db → ∀ db' r, releaseTimeSlot db slotId = .ok (db', r) → ConsInv db') ∧
    (ConsInv db → ∀ db' r, updateSlotStatus db slotId status pid = .ok (db', r) → ConsInv db') ∧
    (ConsInv db → ∀ db' r, deleteTimeSlot db slotId pid = .ok (db', r) → ConsInv db') ∧
    (ConsInv db → ∀ db' res, batchDeactivate db pid daysOfWeek today = .ok (db', res) →
      ConsInv db') := by
  refine ⟨?_, ?_, ?_, ?_, ?_, ?_⟩
  · -- generateTimeSlots
    intro hinv
    rw [generateTimeSlots_fst]
    by_cases hav : findAllByPractitioner db pid = []
    · rw [if_pos hav]
      exact hinv
    · rw [if_neg hav]
      intro s hs
      rw [insertSlots_slots] at hs
      rcases List.mem_append.mp hs with hs | hs
      · exact hinv s hs
      · obtain ⟨c, hc, hpid, hdate, hstart, hstatus, hcons⟩ :=
          realizeAll_mem_fwd _ _ s hs
        have hcand : c ∈ generateCandidates (findAllByPractitioner db pid) pid startD endD :=
          List.mem_of_mem_filter hc
        obtain ⟨-, -, -, hcav⟩ := generateCandidates_mem _ _ _ _ c hcand
        constructor
        · intro hb
          rw [hstatus, hcav] at hb
          cases hb
        · intro _
          exact hcons
  · -- bookTimeSlot
    intro hinv db' r h
    unfold bookTimeSlot bookRead bookCommit at h
    split at h
    · cases h
    · split at h
      · cases h
      · split at h
        · cases h
        · rw [Except.ok.injEq, Prod.mk.injEq] at h
          obtain ⟨hdb, -⟩ := h
          subst hdb
          intro s hs
          obtain ⟨s0, hs0, rfl⟩ := List.mem_map.mp hs
          by_cases hid : (s0.id == slotId) = true
          · rw [if_pos hid]
            exact ⟨fun _ => by simp, fun hn => absurd rfl hn⟩
          · rw [if_neg hid]
            exact hinv s0 hs0
  · -- releaseTimeSlot
    intro hinv db' r h
    unfold releaseTimeSlot at h
    split at h
    · cases h
    · rw [Except.ok.injEq, Prod.mk.injEq] at h
      obtain ⟨hdb, -⟩ := h
      subst hdb
      intro s hs
      obtain ⟨s0, hs0, rfl⟩ := List.mem_map.mp hs
      by_cases hid : (s0.id == slotId) = true
      · rw [if_pos hid]
        simp [consultationInv]
      · rw [if_neg hid]
        exact hinv s0 hs0
  · -- updateSlotStatus
    intro hinv db' r h
    unfold updateSlotStatus at h
    split at h
    · cases h
    · rename_i ts hfind
      by_cases hb : (ts.status == SlotStatus.BOOKED) = true
      · rw [if_pos hb] at h
        cases h
      · rw [if_neg hb] at h
        rw [Except.ok.injEq, Prod.mk.injEq] at h
        obtain ⟨hdb, -⟩ := h
        subst hdb
        have htsmem : ts ∈ db.slots := by
          have := List.find?_some hfind
          exact List.mem_of_find?_eq_some hfind
        have hnb : ts.status ≠ .BOOKED := by
          simpa using hb
        have hcons : ts.consultationId = none := (hinv ts htsmem).2 hnb
        intro s hs
        obtain ⟨s0, hs0, rfl⟩ := List.mem_map.mp hs
        by_cases hid : (s0.id == slotId) = true
        · rw [if_pos hid]
          refine ⟨?_, fun _ => hcons⟩
          intro hb'
          cases status <;> simp [UpdatableStatus.toStatus] at hb'
        · rw [if_neg hid]
          exact hinv s0 hs0
  · -- deleteTimeSlot
    intro hinv db' r h
    unfold deleteTimeSlot at h
    split at h
    · cases h
    · rename_i ts hfind
      by_cases hb : (ts.status == SlotStatus.BOOKED) = true
      · rw [if_pos hb] at h
        cases h
      · rw [if_neg hb] at h
        rw [Except.ok.injEq, Prod.mk.injEq] at h
        obtain ⟨hdb, -⟩ := h
        subst hdb
        intro s hs
        exact hinv s (List.mem_of_mem_filter hs)
  · -- batchDeactivate
    intro hinv db' res h
    intro s hs
    exact hinv s (batchDeactivate_ok_slots_sub db pid daysOfWeek today db' res h s hs)

/-- Witness for C7: booking the available slot of `wDbA` yields a store
that still satisfies the consultation-id invariant. -/
theorem consultationInv_preserved_witness :
    ConsInv { wDbA with slots := [{ wSlotA with status := .BOOKED, consultationId := some 42 }] } :=
  (consultationInv_preserved wDbA 7 42 1 .BLOCKED [] 0 0 0).2.1
    (by
      intro s hs
      simp only [wDbA] at hs
      rw [List.mem_singleton] at hs
      subst hs
      simp [consultationInv, wSlotA])
    { wDbA with slots := [{ wSlotA with status := .BOOKED, consultationId := some 42 }] }
    { wSlotA with status := .BOOKED, consultationId := some 42 } rfl

/-! ### Claim C4: upsert-by-day semantics of createAvailabilityRaw -/

/-- The validation conditions `createAvailabilityRaw` imposes on its
input. -/
def RawAvailabilityData.valid (d : RawAvailabilityData) : Prop :=
  0 < d.practitionerId ∧ 0 ≤ d.dayOfWeek ∧ d.dayOfWeek ≤ 6 ∧
  d.startTime ≠ [] ∧ d.endTime ≠ [] ∧ 15 ≤ d.slotDuration ∧ d.slotDuration ≤ 120

/-- At most one active availability row per practitioner and weekday. -/
def atMostOneActivePerDay (db : DB) : Prop :=
  ∀ (p d : Int), (db.avails.filter (fun a =>
    a.practitionerId == p && a.dayOfWeek == d && a.isActive)).length ≤ 1

theorem createAvailabilityRaw_valid_eq (db : DB) (data : RawAvailabilityData)
    (hv : data.valid) :
    createAvailabilityRaw db data =
      match db.avails.find? (fun a =>
          a.practitionerId == data.practitionerId && a.dayOfWeek == data.dayOfWeek &&
            a.isActive) with
      | some existing =>
        .ok ({ db with avails := db.avails.map (fun a =>
                if a.id == existing.id then updatedWith existing data else a) },
             updatedWith existing data)
      | none =>
        .ok ({ db with
                avails := db.avails ++ [newRowOf db data]
                availNextId := db.availNextId + 1 },
             newRowOf db data) := by
  obtain ⟨h1, h2, h3, h4, h5, h6, h7⟩ := hv
  unfold createAvailabilityRaw
  rw [if_neg (by omega), if_neg (by omega), if_neg h4, if_neg h5, if_neg (by omega)]

theorem map_replace_of_no_id (i : Nat) (b : Availability) :
    ∀ (m : List Availability), (∀ a ∈ m, a.id ≠ i) →
      m.map (fun a => if a.id == i then b else a) = m := by
  intro m
  induction m with
  | nil => intro _; rfl
  | cons x xs ih =>
    intro hm
    rw [List.map_cons]
    rw [if_neg (by simp [hm x (List.mem_cons_self x xs)])]
    rw [ih (fun a ha => hm a (List.mem_cons_of_mem x ha))]

theorem find?_append_left_none {α} (p : α → Bool) (l1 l2 : List α)
    (h : l1.find? p = none) : (l1 ++ l2).find? p = l2.find? p := by
  induction l1 with
  | nil => rfl
  | cons a l ih =>
    cases hpa : p a with
    | false =>
      rw [List.find?_cons_of_neg _ (by simp [hpa])] at h
      rw [List.cons_append, List.find?_cons_of_neg _ (by simp [hpa])]
      exact ih h
    | true =>
      rw [List.find?_cons_of_pos _ hpa] at h
      cases h

theorem length_filter_update_le (l1 l2 : List Availability) (ex b : Availability)
    (pp : Availability → Bool) (himp : pp b = true → pp ex = true)
    (h1 : ∀ a ∈ l1, a.id ≠ ex.id) (h2 : ∀ a ∈ l2, a.id ≠ ex.id) :
    (((l1 ++ ex :: l2).map (fun a => if a.id == ex.id then b else a)).filter pp).length ≤
      ((l1 ++ ex :: l2).filter pp).length := by
  rw [List.map_append, List.map_cons]
  rw [map_replace_of_no_id ex.id b l1 h1, map_replace_of_no_id ex.id b l2 h2]
  rw [if_pos (by simp)]
  rw [List.filter_append, List.filter_append, List.length_append, List.length_append]
  have hle : (List.filter pp (b :: l2)).length ≤ (List.filter pp (ex :: l2)).length := by
    rw [List.filter_cons, List.filter_cons]
    by_cases hb : pp b = true
    · rw [if_pos hb, if_pos (himp hb)]
      simp
    · rw [if_neg hb]
      by_cases hex : pp ex = true
      · rw [if_pos hex]
        simp [Nat.le_succ]
      · rw [if_neg hex]
  omega

theorem nodup_ids_split (l1 l2 : List Availability) (ex : Availability)
    (hnodup : ((l1 ++ ex :: l2).map (fun a => a.id)).Nodup) :
    (∀ a ∈ l1, a.id ≠ ex.id) ∧ (∀ a ∈ l2, a.id ≠ ex.id) := by
  rw [List.map_append, List.map_cons] at hnodup
  constructor
  · intro a ha heq
    have hmem : ex.id ∈ l1.map (fun a => a.id) := by
      rw [List.mem_map]
      exact ⟨a, ha, heq⟩
    exact (List.disjoint_of_nodup_append hnodup) hmem (List.mem_cons_self _ _)
  · intro a ha heq
    have hnd2 := List.Nodup.of_append_right hnodup
    have hnot : ex.id ∉ l2.map (fun a => a.id) := (List.nodup_cons.mp hnd2).1
    refine hnot ?_
    rw [List.mem_map]
    exact ⟨a, ha, heq⟩

/-- C4: upsert-by-day semantics.  When a valid create request finds an
active window for the same practitioner and weekday, it updates that row
in place (same id, data fields replaced, row count unchanged) instead of
inserting a second row; consequently two successive creates on a
practitioner/weekday pair with no prior rows leave exactly one row for
that pair, carrying the second request's values under the first insert's
id; and the at-most-one-active-row-per-(practitioner, weekday) invariant
is preserved by every successful create. -/
theorem createAvailabilityRaw_upsert (db : DB) (d1 d2 : RawAvailabilityData) :
    (∀ ex, d1.valid →
      db.avails.find? (fun a =>
        a.practitionerId == d1.practitionerId && a.dayOfWeek == d1.dayOfWeek && a.isActive) =
          some ex →
      createAvailabilityRaw db d1 = .ok
        ({ db with avails := db.avails.map (fun a =>
            if a.id == ex.id then updatedWith ex d1 else a) }, updatedWith ex d1) ∧
      (db.avails.map (fun a =>
        if a.id == ex.id then updatedWith ex d1 else a)).length = db.avails.length) ∧
    (d1.valid → d2.valid → d1.isActive = true →
      d2.practitionerId = d1.practitionerId → d2.dayOfWeek = d1.dayOfWeek →
      (∀ a ∈ db.avails, a.id < db.availNextId) →
      (∀ a ∈ db.avails, ¬(a.practitionerId = d1.practitionerId ∧ a.dayOfWeek = d1.dayOfWeek)) →
      ∃ db1 r1 db2 r2,
        createAvailabilityRaw db d1 = .ok (db1, r1) ∧
        createAvailabilityRaw db1 d2 = .ok (db2, r2) ∧
        r2.id = r1.id ∧
        r2.startTime = d2.startTime ∧ r2.endTime = d2.endTime ∧
        r2.slotDuration = d2.slotDuration ∧ r2.isActive = d2.isActive ∧
        db2.avails.filter (fun a =>
          a.practitionerId == d1.practitionerId && a.dayOfWeek == d1.dayOfWeek) = [r2] ∧
        db2.avails.length = db.avails.length + 1) ∧
    (atMostOneActivePerDay db → (db.avails.map (fun a => a.id)).Nodup →
      ∀ db' row, createAvailabilityRaw db d1 = .ok (db', row) → atMostOneActivePerDay db') := by
  refine ⟨?_, ?_, ?_⟩
  · -- update-in-place
    intro ex hv hfind
    rw [createAvailabilityRaw_valid_eq db d1 hv, hfind]
    exact ⟨rfl, List.length_map _ _⟩
  · -- two successive creates
    intro hv1 hv2 hact hp hdow hbound hfree
    have hfind1 : db.avails.find? (fun a =>
        a.practitionerId == d1.practitionerId && a.dayOfWeek == d1.dayOfWeek && a.isActive) =
        none := by
      rw [List.find?_eq_none]
      intro a ha hcontra
      simp only [Bool.and_eq_true, beq_iff_eq] at hcontra
      exact hfree a ha ⟨hcontra.1.1, hcontra.1.2⟩
    have h1 := createAvailabilityRaw_valid_eq db d1 hv1
    rw [hfind1] at h1
    have hfindL : db.avails.find? (fun a =>
        a.practitionerId == d2.practitionerId && a.dayOfWeek == d2.dayOfWeek && a.isActive) =
        none := by
      rw [List.find?_eq_none]
      intro a ha hcontra
      simp only [Bool.and_eq_true, beq_iff_eq] at hcontra
      exact hfree a ha ⟨hcontra.1.1.trans hp, hcontra.1.2.trans hdow⟩
    have hfind2 : (db.avails ++ [newRowOf db d1]).find? (fun a =>
        a.practitionerId == d2.practitionerId && a.dayOfWeek == d2.dayOfWeek && a.isActive) =
        some (newRowOf db d1) := by
      rw [find?_append_left_none _ _ _ hfindL]
      rw [List.find?_cons_of_pos]
      simp [newRowOf, hp, hdow, hact]
    have h2 := createAvailabilityRaw_valid_eq
      { db with avails := db.avails ++ [newRowOf db d1], availNextId := db.availNextId + 1 } d2 hv2
    dsimp only at h2
    rw [hfind2] at h2
    dsimp only at h2
    have hmap : (db.avails ++ [newRowOf db d1]).map (fun a =>
        if a.id == (newRowOf db d1).id then updatedWith (newRowOf db d1) d2 else a) =
        db.avails ++ [updatedWith (newRowOf db d1) d2] := by
      rw [List.map_append]
      rw [map_replace_of_no_id _ _ db.avails ?hno]
      · rw [List.map_cons, List.map_nil, if_pos (by simp)]
      case hno =>
        intro a ha heq
        have hb := hbound a ha
        have hrid : (newRowOf db d1).id = db.availNextId := rfl
        omega
    rw [hmap] at h2
    refine ⟨_, newRowOf db d1,
      { db with avails := db.avails ++ [updatedWith (newRowOf db d1) d2], availNextId := db.availNextId + 1 },
      updatedWith (newRowOf db d1) d2, h1, h2, rfl, rfl, rfl, rfl, rfl, ?_, ?_⟩
    · show ((db.avails ++ [updatedWith (newRowOf db d1) d2]).filter (fun a =>
        a.practitionerId == d1.practitionerId && a.dayOfWeek == d1.dayOfWeek)) =
        [updatedWith (newRowOf db d1) d2]
      rw [List.filter_append]
      have hl : db.avails.filter (fun a =>
          a.practitionerId == d1.practitionerId && a.dayOfWeek == d1.dayOfWeek) = [] := by
        rw [List.filter_eq_nil_iff]
        intro a ha hcontra
        simp only [Bool.and_eq_true, beq_iff_eq] at hcontra
        exact hfree a ha ⟨hcontra.1, hcontra.2⟩
      rw [hl, List.nil_append]
      rw [List.filter_cons_of_pos]
      · rfl
      · simp [updatedWith, newRowOf]
    · show (db.avails ++ [updatedWith (newRowOf db d1) d2]).length = db.avails.length + 1
      simp
  · -- invariant preservation
    intro hinv hnodup db' row h
    unfold createAvailabilityRaw at h
    split at h
    · cases h
    split at h
    · cases h
    split at h
    · cases h
    split at h
    · cases h
    split at h
    · cases h
    split at h
    · -- update branch
      rename_i ex hfind
      rw [Except.ok.injEq, Prod.mk.injEq] at h
      obtain ⟨hdb, -⟩ := h
      subst hdb
      intro p d
      show ((db.avails.map (fun a =>
        if a.id == ex.id then updatedWith ex d1 else a)).filter (fun a =>
          a.practitionerId == p && a.dayOfWeek == d && a.isActive)).length ≤ 1
      have hexmem : ex ∈ db.avails := List.mem_of_find?_eq_some hfind
      obtain ⟨l1, l2, hsplit⟩ := List.append_of_mem hexmem
      have hids := hnodup
      rw [hsplit] at hids
      obtain ⟨hno1, hno2⟩ := nodup_ids_split l1 l2 ex hids
      have hexactive : ex.isActive = true := by
        have hps := List.find?_some hfind
        simp only [Bool.and_eq_true] at hps
        exact hps.2
      have hinv' := hinv p d
      rw [hsplit] at hinv'
      rw [hsplit]
      refine le_trans (length_filter_update_le l1 l2 ex (updatedWith ex d1) _ ?_ hno1 hno2)
        hinv'
      intro hb
      simp only [Bool.and_eq_true, beq_iff_eq] at hb ⊢
      exact ⟨⟨hb.1.1, hb.1.2⟩, hexactive⟩
    · -- insert branch
      rename_i hfind
      rw [Except.ok.injEq, Prod.mk.injEq] at h
      obtain ⟨hdb, -⟩ := h
      subst hdb
      intro p d
      show ((db.avails ++ [newRowOf db d1]).filter (fun a =>
        a.practitionerId == p && a.dayOfWeek == d && a.isActive)).length ≤ 1
      rw [List.filter_append, List.length_append]
      by_cases hrow : ((newRowOf db d1).practitionerId == p &&
          (newRowOf db d1).dayOfWeek == d && (newRowOf db d1).isActive) = true
      · have hl : db.avails.filter (fun a =>
            a.practitionerId == p && a.dayOfWeek == d && a.isActive) = [] := by
          rw [List.filter_eq_nil_iff]
          intro a ha hcontra
          simp only [Bool.and_eq_true, beq_iff_eq] at hrow hcontra
          have hfind' := List.find?_eq_none.mp hfind a ha
          apply hfind'
          simp only [Bool.and_eq_true, beq_iff_eq]
          exact ⟨⟨hcontra.1.1.trans hrow.1.1.symm, hcontra.1.2.trans hrow.1.2.symm⟩,
            hcontra.2⟩
        rw [hl]
        simpa using List.length_filter_le _ [newRowOf db d1]
      · have hr : ([newRowOf db d1].filter (fun a =>
            a.practitionerId == p && a.dayOfWeek == d && a.isActive)) = [] := by
          rw [List.filter_eq_nil_iff]
          intro a ha
          rw [List.mem_singleton] at ha
          subst ha
          exact fun hcontra => hrow hcontra
        rw [hr]
        simpa using hinv p d

/-- An existing active availability row (practitioner 7, Tuesday). -/
def wAvRow : Availability :=
  { id := 1, practitionerId := 7, dayOfWeek := 2, startTime := "09:00".toList,
    endTime := "17:00".toList, slotDuration := 30, isActive := true }

/-- A store holding only `wAvRow`. -/
def wAvDb : DB := { avails := [wAvRow], availNextId := 2, slots := [], slotNextId := 1 }

/-- A second valid create request for the same practitioner and weekday
with different times. -/
def wRaw2 : RawAvailabilityData :=
  { practitionerId := 7, dayOfWeek := 2, startTime := "10:00".toList,
    endTime := "16:00".toList, slotDuration := 60, isActive := true }

/-- Witness for C4: re-creating practitioner 7's Tuesday window updates
the existing row in place, leaving the row count unchanged. -/
theorem createAvailabilityRaw_upsert_witness :
    createAvailabilityRaw wAvDb wRaw2 = .ok
      ({ wAvDb with avails := wAvDb.avails.map (fun a =>
          if a.id == wAvRow.id then updatedWith wAvRow wRaw2 else a) },
       updatedWith wAvRow wRaw2) ∧
    (wAvDb.avails.map (fun a =>
      if a.id == wAvRow.id then updatedWith wAvRow wRaw2 else a)).length =
      wAvDb.avails.length :=
  (createAvailabilityRaw_upsert wAvDb wRaw2 wRaw2).1 wAvRow
    (by unfold RawAvailabilityData.valid; decide) (by decide)
